import Mathlib

/-!
Verification of the claude-code-open translating proxy.

Shallow embedding of the Go sources:
* `internal/plugins/registry.go` — the transformation pipeline (priority-ordered
  chains of request / response / stream transformers and metadata observers).
* `internal/plugins/builtin` — the built-in plugins (token counter,
  system-prompt injector, response filter).
* `internal/providers/registry.go` — the provider registry and `Initialize`.
* `internal/providers/anthropic.go` — the Anthropic-native pass-through adapter.
* `internal/webui/server.go` — statistics store (`LogRequest`) and API-key
  masking helpers (`maskString`, `maskAPIKey`).
* The stream translator of §4.3 of the specification, modelled from the spec
  (its implementation file is not part of this source snapshot; only its
  `StreamState` declaration is).

Go byte slices carried opaquely through the pipeline are modelled as `List Nat`;
Go strings manipulated by byte index are modelled as `List Char`; JSON bodies
that the built-in plugins parse are modelled as a `JVal` tree.
-/

namespace CCO

/-- Opaque request/response body bytes (`[]byte` in Go). -/
abbrev GoBytes : Type := List Nat

/-- Per-request context visible to plugins (`context.Context` carrying
provider / model / request id, from `internal/plugins/plugin.go`). -/
structure PlugCtx where
  provider : String := ""
  model : String := ""
  requestID : String := ""
deriving DecidableEq

/-- A transformer plugin, the common shape of the Go interfaces
`RequestTransformer`, `ResponseTransformer` and `StreamTransformer`
(`internal/plugins/plugin.go`): `Name`, `Description`, `Priority`,
`Enabled(ctx)` and one bytes-to-bytes transform hook that may fail. -/
structure BytesTransformer where
  name : String
  description : String := ""
  priority : Int
  enabled : PlugCtx → Bool
  transform : PlugCtx → GoBytes → Except String GoBytes

/-- Go `fmt.Errorf("plugin %s failed: %w", plugin.Name(), err)` from
`registry.go`. -/
def pluginFailedMsg (name errMsg : String) : String :=
  "plugin " ++ name ++ " failed: " ++ errMsg

/-- The loop body shared by `ApplyRequestTransformers`,
`ApplyResponseTransformers` and `ApplyStreamTransformers`
(`internal/plugins/registry.go`): skip disabled plugins, thread the
result through each enabled one, abort with the wrapped error on failure. -/
def applyTransformers (ctx : PlugCtx) : List BytesTransformer → GoBytes → Except String GoBytes
  | [], b => .ok b
  | p :: ps, b =>
    if p.enabled ctx then
      match p.transform ctx b with
      | .ok b2 => applyTransformers ctx ps b2
      | .error e => .error (pluginFailedMsg p.name e)
    else
      applyTransformers ctx ps b

/-- Insertion step of sorting a transformer chain by ascending priority. -/
def insertByPriority (p : BytesTransformer) : List BytesTransformer → List BytesTransformer
  | [] => [p]
  | q :: qs => if p.priority ≤ q.priority then p :: q :: qs else q :: insertByPriority p qs

/-- Go `sortRequestTransformers` / `sortResponseTransformers` /
`sortStreamTransformers` (`registry.go`): sort the chain so that lower
`Priority()` runs earlier. Modelled as insertion sort; Go's `sort.Slice`
is likewise unstable, and both agree on chains with distinct priorities. -/
def sortTransformers : List BytesTransformer → List BytesTransformer
  | [] => []
  | p :: ps => insertByPriority p (sortTransformers ps)

/-- Go `RegisterRequestTransformer` and friends (`registry.go`): append the
new plugin and re-sort the whole chain by priority. -/
def registerTransformer (chain : List BytesTransformer) (p : BytesTransformer) :
    List BytesTransformer :=
  sortTransformers (chain ++ [p])

/-- Building a chain by a sequence of `Register*Transformer` calls. -/
def registerAll (ps : List BytesTransformer) : List BytesTransformer :=
  ps.foldl registerTransformer []

/-- Ascending-priority ordering of a chain. -/
def priorityAscending (chain : List BytesTransformer) : Prop :=
  chain.Pairwise (fun a b => a.priority ≤ b.priority)

/-- Go `RequestMetadata` (`internal/plugins/plugin.go`). -/
structure RequestMetadata where
  provider : String := ""
  model : String := ""
  inputTokens : Int := 0
  hasStreaming : Bool := false

/-- Go `ResponseMetadata` (`internal/plugins/plugin.go`). -/
structure ResponseMetadata where
  provider : String := ""
  model : String := ""
  outputTokens : Int := 0
  status : Int := 0
  durationMs : Int := 0
  cachedTokens : Int := 0

/-- The effect an observer hook produces when it runs (log lines in Go);
kept abstract as a value so that invocation can be observed in the model. -/
def ObsEffect : Type := List String

/-- A metadata observer (`MetadataPlugin` in `internal/plugins/plugin.go`);
its `OnRequest` / `OnResponse` hooks are modelled as returning the side
effect they perform. -/
structure MetadataObserver where
  name : String
  enabled : PlugCtx → Bool
  onRequest : PlugCtx → RequestMetadata → ObsEffect
  onResponse : PlugCtx → ResponseMetadata → ObsEffect

/-- Go `NotifyRequest` (`registry.go`): invoke `OnRequest` on every enabled
metadata plugin, in registration order. The returned list collects the
effects of exactly the hooks that were invoked. -/
def notifyRequest (ctx : PlugCtx) (md : RequestMetadata) :
    List MetadataObserver → List ObsEffect
  | [] => []
  | p :: ps =>
    if p.enabled ctx then p.onRequest ctx md :: notifyRequest ctx md ps
    else notifyRequest ctx md ps

/-- Go `NotifyResponse` (`registry.go`): invoke `OnResponse` on every enabled
metadata plugin, in registration order. -/
def notifyResponse (ctx : PlugCtx) (md : ResponseMetadata) :
    List MetadataObserver → List ObsEffect
  | [] => []
  | p :: ps =>
    if p.enabled ctx then p.onResponse ctx md :: notifyResponse ctx md ps
    else notifyResponse ctx md ps

/-! ## Provider registry (`internal/providers/registry.go`) -/

/-- The slice of a `config.Provider` that the provider registry reads. -/
structure CfgProvider where
  name : String
  apiBase : String := ""
deriving DecidableEq

/-- A registered provider adapter. `family` records which `New*Provider`
constructor built it; every adapter's `Name()` returns the configured name. -/
structure Adapter where
  family : String
  cfg : CfgProvider
deriving DecidableEq

/-- The registry's `providers` map, keyed by `provider.Name()`. -/
def ProvRegistry : Type := List (String × Adapter)

/-- Go `Registry.Register`: `r.providers[provider.Name()] = provider`
(map assignment; the newest binding for a key wins on lookup). -/
def provRegister (r : ProvRegistry) (p : Adapter) : ProvRegistry :=
  (p.cfg.name, p) :: r

/-- Go `Registry.Get`: map lookup by provider name. -/
def provGet : ProvRegistry → String → Option Adapter
  | [], _ => none
  | (k, v) :: r, n => if k = n then some v else provGet r n

/-- One iteration of the `switch cfgProvider.Name` in `Registry.Initialize`:
the six recognised names register an adapter, anything else is skipped. -/
def initStep (r : ProvRegistry) (cfg : CfgProvider) : ProvRegistry :=
  if cfg.name = "openrouter" then provRegister r ⟨"openrouter", cfg⟩
  else if cfg.name = "openai" then provRegister r ⟨"openai", cfg⟩
  else if cfg.name = "anthropic" then provRegister r ⟨"anthropic", cfg⟩
  else if cfg.name = "nvidia" then provRegister r ⟨"nvidia", cfg⟩
  else if cfg.name = "gemini" then provRegister r ⟨"gemini", cfg⟩
  else if cfg.name = "ollama" then provRegister r ⟨"ollama", cfg⟩
  else r

/-- Go `Registry.Initialize(cfgProviders)`: fold `initStep` over the
configured providers, starting from the empty registry. -/
def initRegistry (cfgs : List CfgProvider) : ProvRegistry :=
  cfgs.foldl initStep []

/-! ## Anthropic-native adapter (`internal/providers/anthropic.go`) -/

/-- Go `ContentBlockState` from `internal/providers/registry.go`. -/
structure ContentBlockState where
  type : String := ""
  startSent : Bool := false
  stopSent : Bool := false
  toolCallID : String := ""
  toolCallIndex : Int := 0
  toolName : String := ""
  arguments : String := ""
deriving DecidableEq

/-- Go `StreamState` from `internal/providers/registry.go` (the per-connection
streaming conversion state passed to every adapter's `TransformStream`). -/
structure StreamState where
  messageStartSent : Bool := false
  messageID : String := ""
  model : String := ""
  contentBlocks : List (Nat × ContentBlockState) := []
  currentIndex : Int := 0
deriving DecidableEq

/-- Go `AnthropicProvider.TransformRequest`: returns the request unchanged. -/
def anthropicTransformRequest (request : GoBytes) : Except String GoBytes :=
  .ok request

/-- Go `AnthropicProvider.TransformResponse`: returns the response unchanged. -/
def anthropicTransformResponse (response : GoBytes) : Except String GoBytes :=
  .ok response

/-- Go `AnthropicProvider.TransformStream`: returns the chunk unchanged and
does not touch the state (the state is returned alongside to make that
observable in the model). -/
def anthropicTransformStream (chunk : GoBytes) (state : StreamState) :
    Except String (GoBytes × StreamState) :=
  .ok (chunk, state)

/-! ## Web-UI statistics and masking (`internal/webui/server.go`) -/

/-- Two's-complement wrap of Go `int64` / `int` arithmetic. -/
def wrap64 (x : Int) : Int :=
  (x + 2 ^ 63) % 2 ^ 64 - 2 ^ 63

/-- Go `RequestLog` (one entry of `Stats.RecentRequests`); `time.Now()` is
supplied by the caller as `timestamp`. -/
structure RequestLog where
  timestamp : Int := 0
  provider : String := ""
  model : String := ""
  inputTokens : Int := 0
  outputTokens : Int := 0
  durationMs : Int := 0
  status : Int := 0
deriving DecidableEq

/-- Go `Stats`: the web-UI statistics store. Go maps become association
lists; a missing key reads as the zero value `0`. -/
structure Stats where
  totalRequests : Int := 0
  totalTokens : Int := 0
  requestsByModel : List (String × Int) := []
  tokensByModel : List (String × Int) := []
  recentRequests : List RequestLog := []

/-- Read a counter map, defaulting a missing key to `0` (Go map read). -/
def counterGet : List (String × Int) → String → Int
  | [], _ => 0
  | (k, v) :: m, n => if k = n then v else counterGet m n

/-- Write a counter map entry (Go map assignment). -/
def counterSet : List (String × Int) → String → Int → List (String × Int)
  | [], n, x => [(n, x)]
  | (k, v) :: m, n, x => if k = n then (n, x) :: m else (k, v) :: counterSet m n x

/-- Go `m[key] += delta` on a Go `map[string]int64`. -/
def counterAdd (m : List (String × Int)) (key : String) (delta : Int) :
    List (String × Int) :=
  counterSet m key (wrap64 (counterGet m key + delta))

/-- Go `Server.LogRequest` (`internal/webui/server.go`): bump the totals and
per-model counters by `inputTokens + outputTokens`, append the request to
`RecentRequests`, and drop the oldest entry once the list exceeds 100. -/
def logRequest (s : Stats) (provider model : String)
    (inputTokens outputTokens durationMs status now : Int) : Stats :=
  let modelKey := provider ++ "/" ++ model
  let tokenSum := wrap64 (inputTokens + outputTokens)
  let entry : RequestLog :=
    { timestamp := now, provider := provider, model := model,
      inputTokens := inputTokens, outputTokens := outputTokens,
      durationMs := durationMs, status := status }
  let recent := s.recentRequests ++ [entry]
  { totalRequests := wrap64 (s.totalRequests + 1)
    totalTokens := wrap64 (s.totalTokens + tokenSum)
    requestsByModel := counterAdd s.requestsByModel modelKey 1
    tokensByModel := counterAdd s.tokensByModel modelKey tokenSum
    recentRequests := if recent.length > 100 then recent.drop 1 else recent }

/-- The literal `"****"`. -/
def stars4 : List Char := ['*', '*', '*', '*']

/-- Go `maskString` (`internal/webui/server.go`); Go strings indexed by byte
are modelled as `List Char`: empty stays empty, length ≤ 8 becomes
`"****"`, otherwise `s[:4] + "****" + s[len(s)-4:]`. -/
def maskString (s : List Char) : List Char :=
  if s = [] then []
  else if s.length ≤ 8 then stars4
  else s.take 4 ++ stars4 ++ s.drop (s.length - 4)

/-- The dynamic value of a provider's `api_key` configuration entry
(`interface{}` in Go): absent, a single string, a list, or anything else. -/
inductive APIKeyVal where
  | nullKey : APIKeyVal
  | strKey (s : List Char) : APIKeyVal
  | listKey (xs : List APIKeyVal) : APIKeyVal
  | otherKey : APIKeyVal

/-- Go `fmt.Sprintf("[%d keys configured]", len(v))`. -/
def keysConfiguredMsg (n : Nat) : List Char :=
  ("[" ++ toString n ++ " keys configured]").data

/-- Go `maskAPIKey` (`internal/webui/server.go`): type-switch on the dynamic
key value. -/
def maskAPIKey : APIKeyVal → List Char
  | .nullKey => []
  | .strKey s => maskString s
  | .listKey xs => keysConfiguredMsg xs.length
  | .otherKey => "[configured]".data

/-! ## Built-in plugins (`internal/plugins/builtin`) -/

/-- A parsed JSON value, the image of `json.Unmarshal` into
`map[string]interface{}` / `[]interface{}` trees. -/
inductive JVal where
  | jstr (s : String) : JVal
  | jnum (n : Int) : JVal
  | jbool (b : Bool) : JVal
  | jnull : JVal
  | jarr (xs : List JVal) : JVal
  | jobj (fs : List (String × JVal)) : JVal

/-- A parsed JSON object (`map[string]interface{}`). -/
def JObj : Type := List (String × JVal)

/-- Read a field of a parsed object (`req["system"]`). -/
def lookupField : JObj → String → Option JVal
  | [], _ => none
  | (k, v) :: fs, n => if k = n then some v else lookupField fs n

/-- Assign a field of a parsed object (`req["system"] = ...`): overwrite
the existing binding, or add one when the key is absent. -/
def setField : JObj → String → JVal → JObj
  | [], n, v => [(n, v)]
  | (k, w) :: fs, n, v => if k = n then (n, v) :: fs else (k, w) :: setField fs n v

/-- Go `SystemPromptInjectorPlugin.TransformRequest` (builtin plugins file),
at the parsed-JSON level: when the `system` field holds a non-empty
string, prepend the configured prompt plus a blank line; in every other
case (absent, empty string, or any non-string value such as a list of
structured blocks) assign the configured prompt. -/
def sysInjectTransformRequest (sysPrompt : String) (req : JObj) : JObj :=
  match lookupField req "system" with
  | some (.jstr s) =>
    if s ≠ "" then setField req "system" (.jstr (sysPrompt ++ "\n\n" ++ s))
    else setField req "system" (.jstr sysPrompt)
  | _ => setField req "system" (.jstr sysPrompt)

/-- The claim's reading of the injector (spec §4.4(b) and the data model's
`system: string or list of structured blocks`): existing content is always
preserved — a non-empty string gets the prompt prepended, and a block list
keeps every existing block. -/
def injectorPreservesSystem (sysPrompt : String) (req : JObj) : Prop :=
  match lookupField req "system",
        lookupField (sysInjectTransformRequest sysPrompt req) "system" with
  | none, some v => v = .jstr sysPrompt
  | some (.jstr s), some v =>
    if s = "" then v = .jstr sysPrompt
    else v = .jstr (sysPrompt ++ "\n\n" ++ s)
  | some (.jarr bs), some v => ∃ bs2, v = .jarr bs2 ∧ bs.Sublist bs2
  | _, _ => False

/-- Go `replaceAll` from the builtin plugins file, verbatim: the placeholder
returns its input unchanged (`result := s; return result`). -/
def replaceAll (s _oldW _newW : String) : String :=
  let result := s
  result

/-- The word-filter fold inside `ResponseFilterPlugin.TransformResponse`:
`for _, word := range p.filterWords { filtered = replaceAll(filtered, word, p.replacement) }`. -/
def filterText (filterWords : List String) (replacement : String) (t : String) : String :=
  filterWords.foldl (fun acc w => replaceAll acc w replacement) t

/-- Go `ResponseFilterPlugin.TransformResponse` at the parsed-JSON level:
for each object in the `content` array that carries a string `text`
field, run the word filter over the text. -/
def responseFilterTransform (filterWords : List String) (replacement : String)
    (resp : JObj) : JObj :=
  match lookupField resp "content" with
  | some (.jarr items) =>
    setField resp "content" (.jarr (items.map fun item =>
      match item with
      | .jobj block =>
        match lookupField block "text" with
        | some (.jstr t) =>
          .jobj (setField block "text" (.jstr (filterText filterWords replacement t)))
        | _ => .jobj block
      | _ => item))
  | _ => resp

/-! ## Proxy-handler error policy (spec §7, `PluginError`) -/

/-- Modelled from the spec: the proxy handler's request-transformer phase
is missing from this source snapshot; per §7 a failing request transformer
is fail-closed — the request is aborted with HTTP status 500. -/
def requestPhase (ctx : PlugCtx) (chain : List BytesTransformer) (body : GoBytes) :
    Except Nat GoBytes :=
  match applyTransformers ctx chain body with
  | .ok b => .ok b
  | .error _ => .error 500

/-- Modelled from the spec: the proxy handler's response-transformer phase
is missing from this source snapshot; per §7 a failing response transformer
is fail-open — the pre-transform bytes pass through to the client. -/
def responsePhase (ctx : PlugCtx) (chain : List BytesTransformer) (body : GoBytes) :
    GoBytes :=
  match applyTransformers ctx chain body with
  | .ok b => b
  | .error _ => body

/-- Modelled from the spec: the proxy handler's per-chunk stream-transformer
phase is missing from this source snapshot; per §7 a failing stream
transformer is fail-open — the pre-transform chunk passes through. -/
def streamPhase (ctx : PlugCtx) (chain : List BytesTransformer) (chunk : GoBytes) :
    GoBytes :=
  match applyTransformers ctx chain chunk with
  | .ok b => b
  | .error _ => chunk

/-- Modelled from the spec: a metadata observer as §7 sees it — a hook
that may fail. (The Go interface cannot even return an error.) -/
structure SpecObserver where
  name : String
  onRequest : PlugCtx → RequestMetadata → Except String ObsEffect

/-- Modelled from the spec: the handler fires every observer and merely
logs failures (fail-open); the collected value is the failure log. -/
def fireObservers (ctx : PlugCtx) (md : RequestMetadata)
    (obs : List SpecObserver) : List String :=
  obs.foldl
    (fun logAcc o =>
      match o.onRequest ctx md with
      | .ok _ => logAcc
      | .error e => logAcc ++ [pluginFailedMsg o.name e])
    []

/-- Modelled from the spec: the buffered proxy pipeline around a request —
observers fire (failures only logged), then the request phase decides the
outcome. The first component is the observer failure log, the second the
processing outcome. -/
def bufferedPipeline (ctx : PlugCtx) (obs : List SpecObserver)
    (chain : List BytesTransformer) (md : RequestMetadata) (body : GoBytes) :
    List String × Except Nat GoBytes :=
  (fireObservers ctx md obs, requestPhase ctx chain body)

/-! ## Stream translator (spec §4.3)

Modelled from the spec: the stream-translator implementation (the
`TransformStream` bodies of the OpenAI-shaped adapters) is not part of
this source snapshot — only its `StreamState` declaration in
`internal/providers/registry.go` is. The definitions below follow the
emission rules of §4.3 verbatim: `message_start` on the first parsed
upstream event, text deltas reuse the open text block or open a fresh
dense index, tool-call deltas are keyed by the upstream tool index, a
terminal event (a `finish_reason`, the `[DONE]` sentinel, or connection
close) stops every open block in ascending index order and emits
`message_delta` then `message_stop`, and a malformed event is dropped.
Per §4.3 "the client always sees a well-formed tail", a stream that ends
before any parsed event still gets `message_start` ahead of the tail. -/

/-- Anthropic `stop_reason` values the translator can emit. -/
inductive StopReason where
  | endTurn | maxTokens | toolUse
deriving DecidableEq

/-- The §4.2 `finish_reason` mapping (`stop → end_turn`,
`length → max_tokens`, `tool_calls → tool_use`, `content_filter →
end_turn`); anything unknown falls back to `end_turn`. -/
def mapFinishReason (r : String) : StopReason :=
  if r = "stop" then .endTurn
  else if r = "length" then .maxTokens
  else if r = "tool_calls" then .toolUse
  else .endTurn

/-- One `tool_calls[i]` fragment of an upstream delta. -/
structure ToolCallDelta where
  upIndex : Nat
  callId : String := ""
  toolName : String := ""
  args : String := ""

/-- One parsed upstream delta: optional text content, tool-call fragments,
optional `finish_reason`. -/
structure UpstreamDelta where
  content : String := ""
  toolCalls : List ToolCallDelta := []
  finishReason : Option String := none

/-- One upstream SSE event: a parsed delta, a malformed payload (dropped),
or the `[DONE]` sentinel. -/
inductive UpstreamEvent where
  | chunk (d : UpstreamDelta)
  | malformed
  | done

/-- The `content_block` variant opened by `content_block_start`. -/
inductive BlockKind where
  | text
  | toolUse (callId toolName : String)
deriving DecidableEq

/-- The Anthropic SSE events the translator emits. -/
inductive AnthropicEvent where
  | messageStart
  | contentBlockStart (index : Nat) (kind : BlockKind)
  | contentBlockDelta (index : Nat) (payload : String)
  | contentBlockStop (index : Nat)
  | messageDelta (stopReason : StopReason)
  | messageStop
deriving DecidableEq

/-- One tracked tool-use block: upstream tool index, assigned Anthropic
block index, accumulated arguments. -/
structure ToolBlockEntry where
  upIndex : Nat
  ansIndex : Nat
  args : String := ""

/-- Modelled from the spec: the translator's per-response bookkeeping
(§3 "stream translation state"): whether `message_start` went out, whether
the terminal tail went out, how many dense block indices were opened, the
open text block if any, and the tool-use blocks keyed by upstream index. -/
structure TransState where
  messageStartSent : Bool := false
  finalized : Bool := false
  opened : Nat := 0
  curTextIndex : Option Nat := none
  toolBlocks : List ToolBlockEntry := []

/-- Emit `message_start` once, on the first event that needs it. -/
def ensureMessageStart (st : TransState) : TransState × List AnthropicEvent :=
  if st.messageStartSent then (st, [])
  else ({ st with messageStartSent := true }, [.messageStart])

/-- Spec §4.3 rule 2, text: non-empty content goes to the open text block, or
opens one at a fresh dense index. -/
def emitTextDelta (st : TransState) (s : String) : TransState × List AnthropicEvent :=
  if s = "" then (st, [])
  else
    match st.curTextIndex with
    | some i => (st, [.contentBlockDelta i s])
    | none =>
      ({ st with curTextIndex := some st.opened, opened := st.opened + 1 },
       [.contentBlockStart st.opened .text, .contentBlockDelta st.opened s])

/-- Spec §4.3 rule 2, tools: reuse the block tracked for this upstream tool
index or open a fresh one; a non-empty arguments delta is accumulated and
emitted as `input_json_delta`. -/
def emitToolDelta (st : TransState) (tc : ToolCallDelta) : TransState × List AnthropicEvent :=
  match st.toolBlocks.find? (fun e => e.upIndex = tc.upIndex) with
  | some e =>
    let st2 := { st with
      toolBlocks := st.toolBlocks.map fun x =>
        if x.upIndex = tc.upIndex then { x with args := x.args ++ tc.args } else x }
    if tc.args = "" then (st2, []) else (st2, [.contentBlockDelta e.ansIndex tc.args])
  | none =>
    let idx := st.opened
    let st2 := { st with
      opened := idx + 1
      toolBlocks := st.toolBlocks ++ [⟨tc.upIndex, idx, tc.args⟩] }
    (st2, .contentBlockStart idx (.toolUse tc.callId tc.toolName) ::
          (if tc.args = "" then [] else [.contentBlockDelta idx tc.args]))

/-- Fold `emitToolDelta` over the `tool_calls` fragments of one delta. -/
def emitToolDeltas (st : TransState) :
    List ToolCallDelta → TransState × List AnthropicEvent
  | [] => (st, [])
  | tc :: tcs =>
    let r1 := emitToolDelta st tc
    let r2 := emitToolDeltas r1.1 tcs
    (r2.1, r1.2 ++ r2.2)

/-- Spec §4.3 rule 4: the terminal tail — `message_start` if still missing,
`content_block_stop` for every open block in ascending index order, then
`message_delta` with the stop reason, then `message_stop`. Emitted once. -/
def finalizeStream (st : TransState) (r : StopReason) : TransState × List AnthropicEvent :=
  if st.finalized then (st, [])
  else
    let r1 := ensureMessageStart st
    ({ r1.1 with finalized := true },
     r1.2 ++ (List.range r1.1.opened).map .contentBlockStop ++
       [.messageDelta r, .messageStop])

/-- Process one upstream event (§4.3 rules 1–4; malformed events are
dropped, and nothing is emitted after the terminal tail). -/
def stepEvent (st : TransState) (e : UpstreamEvent) : TransState × List AnthropicEvent :=
  if st.finalized then (st, [])
  else
    match e with
    | .malformed => (st, [])
    | .done => finalizeStream st .endTurn
    | .chunk d =>
      let r1 := ensureMessageStart st
      let r2 := emitTextDelta r1.1 d.content
      let r3 := emitToolDeltas r2.1 d.toolCalls
      match d.finishReason with
      | some fr =>
        let r4 := finalizeStream r3.1 (mapFinishReason fr)
        (r4.1, r1.2 ++ r2.2 ++ r3.2 ++ r4.2)
      | none => (r3.1, r1.2 ++ r2.2 ++ r3.2)

/-- Run the translator over a finite upstream event sequence. -/
def runTranslator (st : TransState) :
    List UpstreamEvent → TransState × List AnthropicEvent
  | [] => (st, [])
  | e :: es =>
    let r1 := stepEvent st e
    let r2 := runTranslator r1.1 es
    (r2.1, r1.2 ++ r2.2)

/-- The full translation of an upstream stream terminated either by a
`[DONE]` / `finish_reason` inside `es` or by connection close (the end of
`es`): per §4.3 robustness, close without a terminal event still emits the
well-formed tail with `stop_reason: end_turn`. -/
def translateStream (es : List UpstreamEvent) : List AnthropicEvent :=
  let r1 := runTranslator {} es
  (r1.2) ++ (finalizeStream r1.1 .endTurn).2

/-! ### The stream well-formedness checker (claim C1's property) -/

/-- Running tallies for the well-formedness check of an emitted Anthropic
event sequence. -/
structure StreamCheck where
  ok : Bool := true
  msgStarts : Nat := 0
  msgDeltas : Nat := 0
  msgStops : Nat := 0
  started : Nat := 0
  stoppedIdx : List Nat := []

/-- One step of the well-formedness check, enforcing per event:
`message_start` only once and before any block event; `content_block_start`
only at the next dense index; `content_block_delta` only for a started,
not-yet-stopped index; `content_block_stop` once per started index;
`message_delta` once; `message_stop` once, after `message_delta` and after
every started block has been stopped. -/
def checkStep (c : StreamCheck) (e : AnthropicEvent) : StreamCheck :=
  match e with
  | .messageStart =>
    if c.msgStarts = 0 ∧ c.started = 0 then { c with msgStarts := c.msgStarts + 1 }
    else { c with ok := false }
  | .contentBlockStart i _ =>
    if c.msgStarts = 1 ∧ i = c.started then { c with started := c.started + 1 }
    else { c with ok := false }
  | .contentBlockDelta i _ =>
    if c.msgStarts = 1 ∧ i < c.started ∧ i ∉ c.stoppedIdx then c
    else { c with ok := false }
  | .contentBlockStop i =>
    if c.msgStarts = 1 ∧ i < c.started ∧ i ∉ c.stoppedIdx then
      { c with stoppedIdx := i :: c.stoppedIdx }
    else { c with ok := false }
  | .messageDelta _ =>
    if c.msgStarts = 1 ∧ c.msgDeltas = 0 ∧ c.msgStops = 0 then { c with msgDeltas := 1 }
    else { c with ok := false }
  | .messageStop =>
    if c.msgStarts = 1 ∧ c.msgDeltas = 1 ∧ c.msgStops = 0 ∧
        c.stoppedIdx.length = c.started then
      { c with msgStops := 1 }
    else { c with ok := false }

/-- Run the checker over an emitted event sequence. -/
def runCheck (c : StreamCheck) (es : List AnthropicEvent) : StreamCheck :=
  es.foldl checkStep c

/-- Stream well-formedness, exactly the property of claim C1: every step
check passed, exactly one `message_start`, exactly one `message_delta`
(which carries a `stop_reason` by construction), exactly one
`message_stop`, and every started block was stopped exactly once. -/
def streamWellFormed (es : List AnthropicEvent) : Prop :=
  let c := runCheck {} es
  c.ok = true ∧ c.msgStarts = 1 ∧ c.msgDeltas = 1 ∧ c.msgStops = 1 ∧
    c.stoppedIdx.length = c.started

/-- Checker/translator relation before `message_start` has gone out:
nothing has been emitted and the state is pristine. -/
def FreshInv (st : TransState) (c : StreamCheck) : Prop :=
  c = {} ∧ st.messageStartSent = false ∧ st.finalized = false ∧
  st.opened = 0 ∧ st.curTextIndex = none ∧ st.toolBlocks = []

/-- Checker/translator relation in the body of a response: `message_start`
went out once, no terminal events yet, no block stopped yet, the checker's
dense-start counter equals the translator's `opened`, and every tracked
block index is in range. -/
def MidInv (st : TransState) (c : StreamCheck) : Prop :=
  c.ok = true ∧ c.msgStarts = 1 ∧ c.msgDeltas = 0 ∧ c.msgStops = 0 ∧
  c.stoppedIdx = [] ∧ c.started = st.opened ∧
  st.messageStartSent = true ∧ st.finalized = false ∧
  (∀ i, st.curTextIndex = some i → i < st.opened) ∧
  (∀ e ∈ st.toolBlocks, e.ansIndex < st.opened)

/-- Checker state after the terminal tail: the stream seen so far is
well-formed and complete. -/
def DoneInv (c : StreamCheck) : Prop :=
  c.ok = true ∧ c.msgStarts = 1 ∧ c.msgDeltas = 1 ∧ c.msgStops = 1 ∧
  c.stoppedIdx.length = c.started

/-- The full translator/checker invariant. -/
def TransInv (st : TransState) (c : StreamCheck) : Prop :=
  (st.finalized = true ∧ DoneInv c) ∨ FreshInv st c ∨ MidInv st c

/-! ## Theorems -/

/-- C8: the Anthropic-native adapter is the identity in all of its
translation hooks — `TransformRequest`, `TransformResponse` and
`TransformStream` return their input bytes unchanged with a nil error,
and `TransformStream` leaves the stream state unmodified. -/
theorem c8_anthropic_adapter_identity :
    ∀ (request response chunk : GoBytes) (st : StreamState),
      anthropicTransformRequest request = .ok request ∧
      anthropicTransformResponse response = .ok response ∧
      anthropicTransformStream chunk st = .ok (chunk, st) := by
  intro _ _ _ _
  exact ⟨rfl, rfl, rfl⟩

/-- C10: `maskString` reveals at most the first 4 and last 4 characters —
empty stays empty, length ≤ 8 becomes the literal `"****"`, longer strings
become `s[:4] ++ "****" ++ s[len(s)-4:]` — and `maskAPIKey` never returns
raw key material for a non-string key: a nil key gives the empty string, a
key list gives only the count message, and any other dynamic type gives
the fixed placeholder. -/
theorem c10_masking :
    maskString [] = [] ∧
    (∀ s : List Char, s ≠ [] → s.length ≤ 8 → maskString s = stars4) ∧
    (∀ s : List Char, 8 < s.length →
      maskString s = s.take 4 ++ stars4 ++ s.drop (s.length - 4)) ∧
    maskAPIKey .nullKey = [] ∧
    (∀ s, maskAPIKey (.strKey s) = maskString s) ∧
    (∀ xs, maskAPIKey (.listKey xs) = keysConfiguredMsg xs.length) ∧
    maskAPIKey .otherKey = "[configured]".data := by
  refine ⟨rfl, ?_, ?_, rfl, fun _ => rfl, fun _ => rfl, rfl⟩
  · intro s hne hle
    simp [maskString, hne, hle]
  · intro s hgt
    have hne : s ≠ [] := by
      intro h
      subst h
      simp at hgt
    have hle : ¬ s.length ≤ 8 := by omega
    simp [maskString, hne, hle]

/-- C10 witness: the masking theorem evaluated at concrete keys. -/
theorem c10_masking_witness :
    maskString ['a', 'b', 'c'] = stars4 ∧
    maskString ['0', '1', '2', '3', '4', '5', '6', '7', '8'] =
      ['0', '1', '2', '3'] ++ stars4 ++ ['5', '6', '7', '8'] ∧
    maskAPIKey (.listKey [.otherKey, .otherKey]) = keysConfiguredMsg 2 := by
  refine ⟨c10_masking.2.1 _ (by decide) (by decide), ?_,
    c10_masking.2.2.2.2.2.1 [.otherKey, .otherKey]⟩
  have h := c10_masking.2.2.1 ['0', '1', '2', '3', '4', '5', '6', '7', '8'] (by decide)
  rw [h]
  decide

/-- C7: a plugin whose `Enabled(ctx)` is false is never invoked — deleting
it from any transformer chain or observer list leaves the registry
functions' behaviour unchanged — and a transformer chain consisting only
of disabled plugins returns its input bytes unchanged. -/
theorem c7_disabled_plugins :
    (∀ (ctx : PlugCtx) (chain : List BytesTransformer) (b : GoBytes),
      (∀ p ∈ chain, p.enabled ctx = false) →
      applyTransformers ctx chain b = .ok b) ∧
    (∀ (ctx : PlugCtx) (pre : List BytesTransformer) (p : BytesTransformer)
        (post : List BytesTransformer) (b : GoBytes),
      p.enabled ctx = false →
      applyTransformers ctx (pre ++ p :: post) b = applyTransformers ctx (pre ++ post) b) ∧
    (∀ (ctx : PlugCtx) (md : RequestMetadata) (pre : List MetadataObserver)
        (p : MetadataObserver) (post : List MetadataObserver),
      p.enabled ctx = false →
      notifyRequest ctx md (pre ++ p :: post) = notifyRequest ctx md (pre ++ post)) ∧
    (∀ (ctx : PlugCtx) (md : ResponseMetadata) (pre : List MetadataObserver)
        (p : MetadataObserver) (post : List MetadataObserver),
      p.enabled ctx = false →
      notifyResponse ctx md (pre ++ p :: post) = notifyResponse ctx md (pre ++ post)) := by
  refine ⟨?_, ?_, ?_, ?_⟩
  · intro ctx chain
    induction chain with
    | nil => intro b _; rfl
    | cons q qs ih =>
      intro b hall
      have hq : q.enabled ctx = false := hall q (by simp)
      simp only [applyTransformers, hq, Bool.false_eq_true, if_false]
      exact ih b (fun p hp => hall p (by simp [hp]))
  · intro ctx pre p post b hp
    induction pre generalizing b with
    | nil => simp [applyTransformers, hp]
    | cons q qs ih =>
      simp only [List.cons_append, applyTransformers]
      by_cases hq : q.enabled ctx
      · simp only [hq, if_true]
        cases q.transform ctx b with
        | ok b2 => exact ih b2
        | error e => rfl
      · simp only [hq, if_false]
        exact ih b
  · intro ctx md pre p post hp
    induction pre with
    | nil => simp [notifyRequest, hp]
    | cons q qs ih =>
      simp only [List.cons_append, notifyRequest]
      by_cases hq : q.enabled ctx
      · simp [hq, ih]
      · simp [hq, ih]
  · intro ctx md pre p post hp
    induction pre with
    | nil => simp [notifyResponse, hp]
    | cons q qs ih =>
      simp only [List.cons_append, notifyResponse]
      by_cases hq : q.enabled ctx
      · simp [hq, ih]
      · simp [hq, ih]

/-- C7 witness: a concrete disabled transformer and observer are skipped;
a chain of one disabled transformer is the identity. -/
theorem c7_disabled_plugins_witness :
    applyTransformers {} [⟨"off", "", 5, fun _ => false, fun _ b => .ok (0 :: b)⟩]
      ([1, 2] : GoBytes) = .ok ([1, 2] : GoBytes) ∧
    notifyRequest {} {}
      [⟨"obs-off", fun _ => false, fun _ _ => ["ran"], fun _ _ => ["ran"]⟩] =
      notifyRequest {} {} [] := by
  constructor
  · exact c7_disabled_plugins.1 {} _ _ (by intro p hp; simp at hp; rw [hp])
  · exact c7_disabled_plugins.2.2.1 {} {} [] _ [] rfl

/-- Lookup success survives any later registration step. -/
theorem provGet_initStep_mono {r : ProvRegistry} {n : String}
    (h : (provGet r n).isSome = true) (cfg : CfgProvider) :
    (provGet (initStep r cfg) n).isSome = true := by
  unfold initStep provRegister
  repeat' split
  all_goals
    first
      | exact h
      | · simp only [provGet]
          split
          · simp
          · exact h

/-- Lookup success survives the rest of an `Initialize` fold. -/
theorem provGet_foldl_mono {n : String} (cfgs : List CfgProvider) :
    ∀ r : ProvRegistry, (provGet r n).isSome = true →
      (provGet (cfgs.foldl initStep r) n).isSome = true := by
  induction cfgs with
  | nil => intro r h; exact h
  | cons c cs ih =>
    intro r h
    exact ih (initStep r c) (provGet_initStep_mono h c)

/-- C6 counterexample: a configuration entry named `deepseek` is skipped by
`Registry.Initialize` — `Get("deepseek")` finds nothing afterwards; the
claim's eight-family list is false on the code. -/
theorem c6_counterexample :
    provGet (initRegistry [{ name := "deepseek" }]) "deepseek" = none ∧
    provGet (initRegistry [{ name := "groq" }]) "groq" = none := by
  constructor <;> rfl

/-- C6 (amended): `Registry.Initialize` registers an adapter exactly for
the six families its switch recognises — anthropic, openai, openrouter,
gemini, ollama, nvidia — so `Get` on such a configured name succeeds;
deepseek and groq entries are ignored. -/
theorem c6_init_six_families :
    ∀ (cfgs : List CfgProvider) (cfg : CfgProvider), cfg ∈ cfgs →
      (cfg.name = "anthropic" ∨ cfg.name = "openai" ∨ cfg.name = "openrouter" ∨
        cfg.name = "gemini" ∨ cfg.name = "ollama" ∨ cfg.name = "nvidia") →
      (provGet (initRegistry cfgs) cfg.name).isSome = true := by
  have key : ∀ (cfgs : List CfgProvider) (r : ProvRegistry) (cfg : CfgProvider),
      cfg ∈ cfgs →
      (cfg.name = "anthropic" ∨ cfg.name = "openai" ∨ cfg.name = "openrouter" ∨
        cfg.name = "gemini" ∨ cfg.name = "ollama" ∨ cfg.name = "nvidia") →
      (provGet (cfgs.foldl initStep r) cfg.name).isSome = true := by
    intro cfgs
    induction cfgs with
    | nil => intro r cfg h; exact absurd h (by simp)
    | cons c cs ih =>
      intro r cfg hmem hname
      rcases List.mem_cons.mp hmem with heq | htl
      · subst heq
        apply provGet_foldl_mono cs
        rcases hname with h | h | h | h | h | h <;>
          simp [initStep, h, provRegister, provGet]
      · exact ih (initStep r c) cfg htl hname
  intro cfgs cfg hmem hname
  exact key cfgs [] cfg hmem hname

/-- C6 witness: a configured `openai` entry is found by `Get` afterwards. -/
theorem c6_init_six_families_witness :
    (provGet (initRegistry [{ name := "openai", apiBase := "https://api.openai.com" }])
      "openai").isSome = true :=
  c6_init_six_families _ _ (List.mem_singleton.mpr rfl) (Or.inr (Or.inl rfl))

/-- Lemma: `wrap64` is the identity inside the `int64` range. -/
theorem wrap64_eq_self {x : Int} (h1 : -(2 ^ 63) ≤ x) (h2 : x < 2 ^ 63) :
    wrap64 x = x := by
  unfold wrap64
  have hp : (2 : Int) ^ 63 = 9223372036854775808 := by norm_num
  have hq : (2 : Int) ^ 64 = 18446744073709551616 := by norm_num
  rw [hp, hq] at *
  rw [Int.emod_eq_of_lt (by omega) (by omega)]
  omega

/-- Reading back the counter key just written. -/
theorem counterGet_counterSet (m : List (String × Int)) (k : String) (x : Int) :
    counterGet (counterSet m k x) k = x := by
  induction m with
  | nil => simp [counterSet, counterGet]
  | cons kv m ih =>
    by_cases h : kv.1 = k
    · simp [counterSet, counterGet, h]
    · simp only [counterSet, counterGet]
      rw [if_neg h, counterGet, if_neg h]
      exact ih

/-- C9: `Server.LogRequest` preserves the 100-entry bound on
`RecentRequests` (appending the new entry and evicting the oldest when a
101st would be kept), increments `TotalRequests` by exactly 1, and
increases `TotalTokens` and the per-model token counter by exactly
`inputTokens + outputTokens` (stated inside the non-overflowing range of
the Go `int64` counters). -/
theorem c9_logrequest_invariant :
    ∀ (s : Stats) (provider model : String)
      (inTok outTok durationMs status now : Int),
      s.recentRequests.length ≤ 100 →
      -(2 ^ 63) ≤ s.totalRequests + 1 → s.totalRequests + 1 < 2 ^ 63 →
      -(2 ^ 63) ≤ inTok + outTok → inTok + outTok < 2 ^ 63 →
      -(2 ^ 63) ≤ s.totalTokens + (inTok + outTok) →
      s.totalTokens + (inTok + outTok) < 2 ^ 63 →
      -(2 ^ 63) ≤ counterGet s.tokensByModel (provider ++ "/" ++ model) + (inTok + outTok) →
      counterGet s.tokensByModel (provider ++ "/" ++ model) + (inTok + outTok) < 2 ^ 63 →
      (logRequest s provider model inTok outTok durationMs status now).recentRequests.length ≤ 100 ∧
      (logRequest s provider model inTok outTok durationMs status now).totalRequests
        = s.totalRequests + 1 ∧
      (logRequest s provider model inTok outTok durationMs status now).totalTokens
        = s.totalTokens + (inTok + outTok) ∧
      counterGet (logRequest s provider model inTok outTok durationMs status now).tokensByModel
          (provider ++ "/" ++ model)
        = counterGet s.tokensByModel (provider ++ "/" ++ model) + (inTok + outTok) ∧
      (s.recentRequests.length = 100 →
        (logRequest s provider model inTok outTok durationMs status now).recentRequests
          = s.recentRequests.drop 1 ++
            [{ timestamp := now, provider := provider, model := model,
               inputTokens := inTok, outputTokens := outTok,
               durationMs := durationMs, status := status }]) ∧
      (s.recentRequests.length < 100 →
        (logRequest s provider model inTok outTok durationMs status now).recentRequests
          = s.recentRequests ++
            [{ timestamp := now, provider := provider, model := model,
               inputTokens := inTok, outputTokens := outTok,
               durationMs := durationMs, status := status }]) := by
  intro s provider model inTok outTok durationMs status now
  intro hlen hr1 hr2 hs1 hs2 ht1 ht2 hm1 hm2
  have hsum : wrap64 (inTok + outTok) = inTok + outTok := wrap64_eq_self hs1 hs2
  have hrecent : ∀ (l : List RequestLog) (e : RequestLog), l.length ≤ 100 →
      (if (l ++ [e]).length > 100 then (l ++ [e]).drop 1 else l ++ [e]).length ≤ 100 := by
    intro l e hl
    split
    · rename_i hgt
      simp only [List.length_drop, List.length_append, List.length_singleton] at *
      omega
    · rename_i hle
      simp only [List.length_append, List.length_singleton] at *
      omega
  refine ⟨?_, ?_, ?_, ?_, ?_, ?_⟩
  · exact hrecent s.recentRequests _ hlen
  · simp only [logRequest]
    exact wrap64_eq_self hr1 hr2
  · simp only [logRequest, hsum]
    exact wrap64_eq_self ht1 ht2
  · simp only [logRequest, hsum, counterAdd, counterGet_counterSet]
    exact wrap64_eq_self hm1 hm2
  · intro h100
    simp only [logRequest]
    rw [if_pos (by simp [h100])]
    rw [List.drop_append_of_le_length (by omega)]
  · intro hlt
    simp only [logRequest]
    rw [if_neg (by simp; omega)]

/-- C9 witness: logging one request onto full and non-full concrete
statistics stores. -/
theorem c9_logrequest_invariant_witness :
    (logRequest { recentRequests := [] } "openai" "gpt-4o-mini" 7 11 5 200 0).totalRequests = 1 ∧
    (logRequest { recentRequests := [] } "openai" "gpt-4o-mini" 7 11 5 200 0).totalTokens = 18 ∧
    counterGet (logRequest { recentRequests := [] } "openai" "gpt-4o-mini" 7 11 5 200 0).tokensByModel
      "openai/gpt-4o-mini" = 18 ∧
    (logRequest { recentRequests := [] } "openai" "gpt-4o-mini" 7 11 5 200 0).recentRequests.length ≤ 100 := by
  have h := c9_logrequest_invariant { recentRequests := [] } "openai" "gpt-4o-mini"
    7 11 5 200 0 (by simp) (by norm_num) (by norm_num) (by norm_num) (by norm_num)
    (by norm_num [counterGet]) (by norm_num [counterGet]) (by norm_num [counterGet])
    (by norm_num [counterGet])
  have hkey : ("openai" ++ "/" ++ "gpt-4o-mini" : String) = "openai/gpt-4o-mini" := rfl
  refine ⟨?_, ?_, ?_, h.1⟩
  · rw [h.2.1]
    norm_num
  · rw [h.2.2.1]
    norm_num
  · rw [← hkey, h.2.2.2.1]
    norm_num [counterGet]

/-- Membership after an insertion step. -/
theorem mem_insertByPriority {x p : BytesTransformer} :
    ∀ {l : List BytesTransformer}, x ∈ insertByPriority p l → x = p ∨ x ∈ l := by
  intro l
  induction l with
  | nil =>
    intro hx
    simp [insertByPriority] at hx
    exact Or.inl hx
  | cons q qs ih =>
    intro hx
    rw [insertByPriority] at hx
    split at hx
    · rcases List.mem_cons.mp hx with rfl | hx2
      · exact Or.inl rfl
      · exact Or.inr hx2
    · rcases List.mem_cons.mp hx with rfl | hx2
      · exact Or.inr (List.mem_cons_self _ _)
      · rcases ih hx2 with h | h
        · exact Or.inl h
        · exact Or.inr (List.mem_cons_of_mem _ h)

/-- Inserting into an ascending chain keeps it ascending. -/
theorem insertByPriority_ascending (p : BytesTransformer)
    (l : List BytesTransformer) (h : priorityAscending l) :
    priorityAscending (insertByPriority p l) := by
  induction l with
  | nil => simp [insertByPriority, priorityAscending]
  | cons q qs ih =>
    rw [priorityAscending, List.pairwise_cons] at h
    obtain ⟨hq, hqs⟩ := h
    by_cases hle : p.priority ≤ q.priority
    · rw [insertByPriority, if_pos hle, priorityAscending, List.pairwise_cons]
      refine ⟨?_, List.Pairwise.cons hq hqs⟩
      intro x hx
      rcases List.mem_cons.mp hx with rfl | hx2
      · exact hle
      · exact le_trans hle (hq x hx2)
    · rw [insertByPriority, if_neg hle, priorityAscending, List.pairwise_cons]
      have hql : q.priority ≤ p.priority := le_of_lt (lt_of_not_le hle)
      refine ⟨?_, ih hqs⟩
      intro x hx
      rcases mem_insertByPriority hx with rfl | hx2
      · exact hql
      · exact hq x hx2


/-- Sorting produces an ascending chain. -/
theorem sortTransformers_ascending (l : List BytesTransformer) :
    priorityAscending (sortTransformers l) := by
  induction l with
  | nil => simp [sortTransformers, priorityAscending]
  | cons p ps ih => exact insertByPriority_ascending p _ ih

/-- C2: transformer chains run in ascending `Priority()` order — any
sequence of `Register*Transformer` calls leaves the chain sorted ascending
by priority, each transformer's output feeds the next, and with three
request transformers of priorities 10, 50 and 1000 the observable output
is `t1000(t50(t10(input)))` in every one of the six registration orders. -/
theorem c2_priority_ordering :
    (∀ ps : List BytesTransformer, priorityAscending (registerAll ps)) ∧
    (∀ (t1 t2 t3 : BytesTransformer) (ctx : PlugCtx) (b b1 b2 b3 : GoBytes),
      t1.priority = 10 → t2.priority = 50 → t3.priority = 1000 →
      t1.enabled ctx = true → t2.enabled ctx = true → t3.enabled ctx = true →
      t1.transform ctx b = .ok b1 → t2.transform ctx b1 = .ok b2 →
      t3.transform ctx b2 = .ok b3 →
      applyTransformers ctx (registerAll [t1, t2, t3]) b = .ok b3 ∧
      applyTransformers ctx (registerAll [t1, t3, t2]) b = .ok b3 ∧
      applyTransformers ctx (registerAll [t2, t1, t3]) b = .ok b3 ∧
      applyTransformers ctx (registerAll [t2, t3, t1]) b = .ok b3 ∧
      applyTransformers ctx (registerAll [t3, t1, t2]) b = .ok b3 ∧
      applyTransformers ctx (registerAll [t3, t2, t1]) b = .ok b3) := by
  constructor
  · intro ps
    have key : ∀ (l : List BytesTransformer) (acc : List BytesTransformer),
        priorityAscending acc →
        priorityAscending (l.foldl registerTransformer acc) := by
      intro l
      induction l with
      | nil => intro acc h; exact h
      | cons p ps ih =>
        intro acc _
        exact ih (registerTransformer acc p) (sortTransformers_ascending _)
    exact key ps [] (by simp [priorityAscending])
  · intro t1 t2 t3 ctx b b1 b2 b3 hp1 hp2 hp3 he1 he2 he3 hx1 hx2 hx3
    refine ⟨?_, ?_, ?_, ?_, ?_, ?_⟩ <;>
      simp [registerAll, registerTransformer, sortTransformers, insertByPriority,
        hp1, hp2, hp3, applyTransformers, he1, he2, he3, hx1, hx2, hx3]

/-- C2 witness: three concrete transformers of priorities 10, 50, 1000
registered out of order still compose as `t1000(t50(t10(input)))`. -/
theorem c2_priority_ordering_witness :
    applyTransformers {}
      (registerAll
        [⟨"p1000", "", 1000, fun _ => true, fun _ b => .ok (b ++ [1000])⟩,
         ⟨"p10", "", 10, fun _ => true, fun _ b => .ok (b ++ [10])⟩,
         ⟨"p50", "", 50, fun _ => true, fun _ b => .ok (b ++ [50])⟩])
      ([] : GoBytes) = .ok ([10, 50, 1000] : GoBytes) := by
  have h := (c2_priority_ordering.2
    ⟨"p10", "", 10, fun _ => true, fun _ b => .ok (b ++ [10])⟩
    ⟨"p50", "", 50, fun _ => true, fun _ b => .ok (b ++ [50])⟩
    ⟨"p1000", "", 1000, fun _ => true, fun _ b => .ok (b ++ [1000])⟩
    {} [] [10] [10, 50] [10, 50, 1000]
    rfl rfl rfl rfl rfl rfl rfl rfl rfl).2.2.2.2.1
  exact h

/-- C3: plugin errors fail closed for request transformers — the wrapped
error is returned no matter what comes later in the chain, and the handler
aborts with 500 — and fail open elsewhere: a failing response or stream
transformer chain passes the pre-transform bytes through, and metadata
observer failures never change the processing outcome. -/
theorem c3_plugin_error_policy :
    (∀ (ctx : PlugCtx) (pre : List BytesTransformer) (p : BytesTransformer)
        (post : List BytesTransformer) (b v : GoBytes) (e : String),
      applyTransformers ctx pre b = .ok v → p.enabled ctx = true →
      p.transform ctx v = .error e →
      applyTransformers ctx (pre ++ p :: post) b = .error (pluginFailedMsg p.name e)) ∧
    (∀ (ctx : PlugCtx) (chain : List BytesTransformer) (b : GoBytes) (e : String),
      applyTransformers ctx chain b = .error e → requestPhase ctx chain b = .error 500) ∧
    (∀ (ctx : PlugCtx) (chain : List BytesTransformer) (b : GoBytes) (e : String),
      applyTransformers ctx chain b = .error e → responsePhase ctx chain b = b) ∧
    (∀ (ctx : PlugCtx) (chain : List BytesTransformer) (c : GoBytes) (e : String),
      applyTransformers ctx chain c = .error e → streamPhase ctx chain c = c) ∧
    (∀ (ctx : PlugCtx) (obs : List SpecObserver) (chain : List BytesTransformer)
        (md : RequestMetadata) (b : GoBytes),
      (bufferedPipeline ctx obs chain md b).2 = requestPhase ctx chain b) := by
  refine ⟨?_, ?_, ?_, ?_, ?_⟩
  · intro ctx pre p post b v e hpre hen htr
    induction pre generalizing b with
    | nil =>
      simp only [applyTransformers] at hpre
      cases hpre
      simp [applyTransformers, hen, htr]
    | cons q qs ih =>
      simp only [applyTransformers, List.cons_append] at hpre ⊢
      by_cases hq : q.enabled ctx
      · simp only [hq, if_true] at hpre ⊢
        cases hqr : q.transform ctx b with
        | ok b2 =>
          rw [hqr] at hpre
          exact ih b2 hpre
        | error e2 =>
          rw [hqr] at hpre
          exact absurd hpre (by simp)
      · simp only [hq, Bool.false_eq_true, if_false] at hpre ⊢
        exact ih b hpre
  · intro ctx chain b e h
    simp [requestPhase, h]
  · intro ctx chain b e h
    simp [responsePhase, h]
  · intro ctx chain c e h
    simp [streamPhase, h]
  · intro ctx obs chain md b
    rfl

/-- C3 witness: a concrete failing request transformer aborts the chain
with the wrapped error and status 500, even with a transformer after it;
the same failure in a response or stream chain passes the input through;
a failing observer leaves the pipeline outcome untouched. -/
theorem c3_plugin_error_policy_witness :
    applyTransformers {}
      ([] ++ ⟨"boom", "", 10, fun _ => true, fun _ _ => .error "kaput"⟩ ::
        [⟨"later", "", 20, fun _ => true, fun _ b => .ok (b ++ [7])⟩])
      ([1] : GoBytes) = .error (pluginFailedMsg "boom" "kaput") ∧
    requestPhase {}
      [⟨"boom", "", 10, fun _ => true, fun _ _ => .error "kaput"⟩]
      ([1] : GoBytes) = .error 500 ∧
    responsePhase {}
      [⟨"boom", "", 10, fun _ => true, fun _ _ => .error "kaput"⟩]
      ([1] : GoBytes) = [1] ∧
    streamPhase {}
      [⟨"boom", "", 10, fun _ => true, fun _ _ => .error "kaput"⟩]
      ([1] : GoBytes) = [1] ∧
    (bufferedPipeline {}
      [⟨"failing-observer", fun _ _ => .error "observer down"⟩]
      [⟨"id", "", 1, fun _ => true, fun _ b => .ok b⟩] {} ([2] : GoBytes)).2 =
      requestPhase {} [⟨"id", "", 1, fun _ => true, fun _ b => .ok b⟩] ([2] : GoBytes) := by
  have hfail : applyTransformers {}
      [⟨"boom", "", 10, fun _ => true, fun _ _ => .error "kaput"⟩]
      ([1] : GoBytes) = .error (pluginFailedMsg "boom" "kaput") :=
    c3_plugin_error_policy.1 {} [] _ [] [1] [1] "kaput" rfl rfl rfl
  refine ⟨c3_plugin_error_policy.1 {} [] _ _ [1] [1] "kaput" rfl rfl rfl,
    c3_plugin_error_policy.2.1 {} _ [1] _ hfail,
    c3_plugin_error_policy.2.2.1 {} _ [1] _ hfail,
    c3_plugin_error_policy.2.2.2.1 {} _ [1] _ hfail,
    c3_plugin_error_policy.2.2.2.2 {} _ _ {} [2]⟩

/-- Reading back the object field just assigned. -/
theorem lookupField_setField (fs : JObj) (k : String) (v : JVal) :
    lookupField (setField fs k v) k = some v := by
  induction fs with
  | nil => simp [setField, lookupField]
  | cons kv fs ih =>
    by_cases h : kv.1 = k
    · simp [setField, lookupField, h]
    · simp only [setField, lookupField]
      rw [if_neg h, lookupField, if_neg h]
      exact ih

/-- C5 counterexample: on a request whose `system` field is a list of
structured blocks, the injector's `TransformRequest` overwrites the field
with the bare configured prompt — the existing blocks are not preserved,
so the claim as stated fails. -/
theorem c5_counterexample :
    ¬ injectorPreservesSystem "P" [("system", JVal.jarr [JVal.jstr "existing"])] := by
  intro h
  simp only [injectorPreservesSystem, sysInjectTransformRequest, lookupField,
    setField, if_pos rfl] at h
  obtain ⟨bs2, hbs2, -⟩ := h
  exact JVal.noConfusion hbs2

/-- C5 (amended): the injector sets `system` to the configured prompt when
the field is absent or the empty string, prepends the prompt (with a blank
line) when the field is a non-empty string, and for any non-string value —
including a list of structured blocks — overwrites the field with the bare
prompt, discarding the existing content. -/
theorem c5_system_prompt_injector :
    ∀ (sysPrompt : String) (req : JObj),
      (lookupField req "system" = none →
        lookupField (sysInjectTransformRequest sysPrompt req) "system"
          = some (.jstr sysPrompt)) ∧
      (lookupField req "system" = some (.jstr "") →
        lookupField (sysInjectTransformRequest sysPrompt req) "system"
          = some (.jstr sysPrompt)) ∧
      (∀ s, s ≠ "" → lookupField req "system" = some (.jstr s) →
        lookupField (sysInjectTransformRequest sysPrompt req) "system"
          = some (.jstr (sysPrompt ++ "\n\n" ++ s))) ∧
      (∀ v, lookupField req "system" = some v → (∀ s, v ≠ .jstr s) →
        lookupField (sysInjectTransformRequest sysPrompt req) "system"
          = some (.jstr sysPrompt)) := by
  intro sysPrompt req
  refine ⟨?_, ?_, ?_, ?_⟩
  · intro h
    simp only [sysInjectTransformRequest, h]
    exact lookupField_setField req "system" _
  · intro h
    simp only [sysInjectTransformRequest, h, ne_eq, not_true_eq_false, ite_false]
    exact lookupField_setField req "system" _
  · intro s hs h
    simp only [sysInjectTransformRequest, h, ne_eq, hs, not_false_eq_true, ite_true]
    exact lookupField_setField req "system" _
  · intro v h hv
    rw [sysInjectTransformRequest]
    rw [h]
    cases v with
    | jstr s => exact absurd rfl (hv s)
    | jnum n => exact lookupField_setField req "system" _
    | jbool b => exact lookupField_setField req "system" _
    | jnull => exact lookupField_setField req "system" _
    | jarr xs => exact lookupField_setField req "system" _
    | jobj fs => exact lookupField_setField req "system" _

/-- C5 witness: the amended behaviour evaluated on concrete requests — an
absent field, an existing plain string, and a block list. -/
theorem c5_system_prompt_injector_witness :
    lookupField (sysInjectTransformRequest "P" [("model", JVal.jstr "m")]) "system"
      = some (.jstr "P") ∧
    lookupField (sysInjectTransformRequest "P" [("system", JVal.jstr "S")]) "system"
      = some (.jstr ("P" ++ "\n\n" ++ "S")) ∧
    lookupField (sysInjectTransformRequest "P"
        [("system", JVal.jarr [JVal.jstr "existing"])]) "system"
      = some (.jstr "P") := by
  refine ⟨(c5_system_prompt_injector "P" _).1 rfl,
    (c5_system_prompt_injector "P" _).2.2.1 "S" (by decide) rfl,
    (c5_system_prompt_injector "P" _).2.2.2 (JVal.jarr [JVal.jstr "existing"]) rfl ?_⟩
  intro s h
  exact JVal.noConfusion h

/-- C4: the shipped `replaceAll` is a placeholder that performs no
replacement, so `ResponseFilterPlugin.TransformResponse` returns every
text block unchanged — here evaluated at a concrete Anthropic-shaped
response containing the configured word "secret", which the claim (and
spec §4.4(c)) requires to come back as "my [redacted] plan". -/
theorem c4_response_filter_noop :
    replaceAll "my secret plan" "secret" "[redacted]" = "my secret plan" ∧
    responseFilterTransform ["secret"] "[redacted]"
      [("content", JVal.jarr
        [JVal.jobj [("type", JVal.jstr "text"), ("text", JVal.jstr "my secret plan")]])]
      = [("content", JVal.jarr
        [JVal.jobj [("type", JVal.jstr "text"), ("text", JVal.jstr "my secret plan")]])] := by
  exact ⟨rfl, rfl⟩

/-- The checker is a fold, so it splits over appended output. -/
theorem runCheck_append (c : StreamCheck) (a b : List AnthropicEvent) :
    runCheck c (a ++ b) = runCheck (runCheck c a) b :=
  List.foldl_append _ _ _ _

/-- Lemma: `ensureMessageStart` establishes the mid-stream relation. -/
theorem ensureMessageStart_inv {st : TransState} {c : StreamCheck}
    (h : FreshInv st c ∨ MidInv st c) :
    MidInv (ensureMessageStart st).1 (runCheck c (ensureMessageStart st).2) := by
  rcases h with ⟨hc, hsent, hfin, hop, hcur, htool⟩ | hmid
  · subst hc
    rw [ensureMessageStart, hsent]
    simp only [Bool.false_eq_true, if_false]
    rw [MidInv]
    refine ⟨?_, ?_, ?_, ?_, ?_, ?_, ?_, ?_, ?_, ?_⟩ <;>
      simp_all [runCheck, checkStep, StreamCheck.mk]
  · have hsent : st.messageStartSent = true := hmid.2.2.2.2.2.2.1
    rw [ensureMessageStart, hsent]
    simp only [if_true]
    exact hmid

/-- Lemma: `emitTextDelta` preserves the mid-stream relation. -/
theorem emitTextDelta_inv {st : TransState} {c : StreamCheck} (s : String)
    (h : MidInv st c) :
    MidInv (emitTextDelta st s).1 (runCheck c (emitTextDelta st s).2) := by
  obtain ⟨hok, hms, hmd, hmp, hsi, hst, hsent, hfin, hcur, htool⟩ := h
  by_cases hs : s = ""
  · rw [emitTextDelta]
    simp only [hs, if_pos rfl]
    exact ⟨hok, hms, hmd, hmp, hsi, hst, hsent, hfin, hcur, htool⟩
  · rw [emitTextDelta, if_neg hs]
    cases hc : st.curTextIndex with
    | some i =>
      have hi : i < st.opened := hcur i hc
      simp only [runCheck, List.foldl_cons, List.foldl_nil]
      rw [checkStep]
      rw [if_pos ⟨hms, by omega, by rw [hsi]; simp⟩]
      exact ⟨hok, hms, hmd, hmp, hsi, hst, hsent, hfin, hcur, htool⟩
    | none =>
      simp only [runCheck, List.foldl_cons, List.foldl_nil]
      rw [checkStep, if_pos ⟨hms, hst.symm⟩]
      rw [checkStep]
      rw [if_pos ⟨hms, by simp [hst], by rw [hsi]; simp⟩]
      refine ⟨hok, hms, hmd, hmp, hsi, by simp [hst], hsent, hfin, ?_, ?_⟩
      · intro j hj
        dsimp only at hj ⊢
        simp at hj
        omega
      · intro e he
        dsimp only at he ⊢
        have := htool e he
        omega

/-- Lemma: `emitToolDelta` preserves the mid-stream relation. -/
theorem emitToolDelta_inv {st : TransState} {c : StreamCheck} (tc : ToolCallDelta)
    (h : MidInv st c) :
    MidInv (emitToolDelta st tc).1 (runCheck c (emitToolDelta st tc).2) := by
  obtain ⟨hok, hms, hmd, hmp, hsi, hst, hsent, hfin, hcur, htool⟩ := h
  rw [emitToolDelta]
  cases hfind : st.toolBlocks.find? (fun e => e.upIndex = tc.upIndex) with
  | some e =>
    have hmem : e ∈ st.toolBlocks := List.mem_of_find?_eq_some hfind
    have hidx : e.ansIndex < st.opened := htool e hmem
    have hmapped : ∀ x ∈ st.toolBlocks.map (fun x =>
        if x.upIndex = tc.upIndex then { x with args := x.args ++ tc.args } else x),
        x.ansIndex < st.opened := by
      intro x hx
      obtain ⟨y, hy, hxy⟩ := List.mem_map.mp hx
      have hyx : x.ansIndex = y.ansIndex := by
        rw [← hxy]
        split <;> rfl
      rw [hyx]
      exact htool y hy
    dsimp only
    by_cases hargs : tc.args = ""
    · rw [if_pos hargs]
      exact ⟨hok, hms, hmd, hmp, hsi, hst, hsent, hfin, hcur, hmapped⟩
    · rw [if_neg hargs]
      simp only [runCheck, List.foldl_cons, List.foldl_nil]
      rw [checkStep, if_pos ⟨hms, by omega, by rw [hsi]; simp⟩]
      exact ⟨hok, hms, hmd, hmp, hsi, hst, hsent, hfin, hcur, hmapped⟩
  | none =>
    have hnewtool : ∀ x ∈ st.toolBlocks ++ [⟨tc.upIndex, st.opened, tc.args⟩],
        ToolBlockEntry.ansIndex x < st.opened + 1 := by
      intro x hx
      rcases List.mem_append.mp hx with hx1 | hx2
      · have := htool x hx1
        omega
      · rw [List.mem_singleton.mp hx2]
        dsimp only
        omega
    have hcur2 : ∀ i, st.curTextIndex = some i → i < st.opened + 1 := by
      intro i hi
      have := hcur i hi
      omega
    dsimp only
    by_cases hargs : tc.args = ""
    · rw [if_pos hargs]
      simp only [runCheck, List.foldl_cons, List.foldl_nil]
      rw [checkStep, if_pos ⟨hms, hst.symm⟩]
      exact ⟨hok, hms, hmd, hmp, hsi, by dsimp only; omega, hsent, hfin, hcur2, hnewtool⟩
    · rw [if_neg hargs]
      simp only [runCheck, List.foldl_cons, List.foldl_nil]
      rw [checkStep, if_pos ⟨hms, hst.symm⟩]
      rw [checkStep, if_pos ⟨hms, by dsimp only; omega, by rw [hsi]; simp⟩]
      exact ⟨hok, hms, hmd, hmp, hsi, by dsimp only; omega, hsent, hfin, hcur2, hnewtool⟩

/-- Folding tool-call fragments preserves the mid-stream relation. -/
theorem emitToolDeltas_inv {st : TransState} {c : StreamCheck}
    (tcs : List ToolCallDelta) (h : MidInv st c) :
    MidInv (emitToolDeltas st tcs).1 (runCheck c (emitToolDeltas st tcs).2) := by
  induction tcs generalizing st c with
  | nil => exact h
  | cons tc tcs ih =>
    rw [emitToolDeltas]
    dsimp only
    rw [runCheck_append]
    exact ih (emitToolDelta_inv tc h)

/-- Running the checker over an ascending run of `content_block_stop`
events, one per still-open index, succeeds and stops them all. -/
theorem runCheck_stops (k : Nat) :
    ∀ (j : Nat) (c : StreamCheck),
      c.ok = true → c.msgStarts = 1 → c.msgDeltas = 0 → c.msgStops = 0 →
      c.started = j + k → c.stoppedIdx.length = j → (∀ x ∈ c.stoppedIdx, x < j) →
      (runCheck c ((List.range' j k).map AnthropicEvent.contentBlockStop)).ok = true ∧
      (runCheck c ((List.range' j k).map AnthropicEvent.contentBlockStop)).msgStarts = 1 ∧
      (runCheck c ((List.range' j k).map AnthropicEvent.contentBlockStop)).msgDeltas = 0 ∧
      (runCheck c ((List.range' j k).map AnthropicEvent.contentBlockStop)).msgStops = 0 ∧
      (runCheck c ((List.range' j k).map AnthropicEvent.contentBlockStop)).started = j + k ∧
      (runCheck c ((List.range' j k).map AnthropicEvent.contentBlockStop)).stoppedIdx.length
        = j + k := by
  induction k with
  | zero =>
    intro j c hok hms hmd hmp hst hlen hall
    simp only [List.range', List.map_nil, runCheck, List.foldl_nil]
    exact ⟨hok, hms, hmd, hmp, hst, by omega⟩
  | succ k ih =>
    intro j c hok hms hmd hmp hst hlen hall
    have hrange : List.range' j (k + 1) = j :: List.range' (j + 1) k := List.range'_succ j k 1
    rw [hrange]
    simp only [List.map_cons, runCheck, List.foldl_cons]
    have hnot : j ∉ c.stoppedIdx := by
      intro hmem
      exact absurd (hall j hmem) (by omega)
    rw [checkStep, if_pos ⟨hms, by omega, hnot⟩]
    have h2 := ih (j + 1) { c with stoppedIdx := j :: c.stoppedIdx }
      hok hms hmd hmp (by dsimp only; omega) (by simp [hlen])
      (by
        intro x hx
        dsimp only at hx
        rcases List.mem_cons.mp hx with rfl | hx2
        · omega
        · have := hall x hx2
          omega)
    simp only [runCheck] at h2 ⊢
    refine ⟨h2.1, h2.2.1, h2.2.2.1, h2.2.2.2.1, by omega, by omega⟩

/-- Unfolding `runCheck` by one event. -/
theorem runCheck_cons (c : StreamCheck) (e : AnthropicEvent) (es : List AnthropicEvent) :
    runCheck c (e :: es) = runCheck (checkStep c e) es := rfl

/-- Value of `runCheck` on no events. -/
theorem runCheck_nil (c : StreamCheck) : runCheck c [] = c := rfl

/-- The `message_delta` step of the checker in the healthy case. -/
theorem checkStep_msgDelta {X : StreamCheck} (r : StopReason)
    (hms : X.msgStarts = 1) (hmd : X.msgDeltas = 0) (hmp : X.msgStops = 0) :
    checkStep X (.messageDelta r) = { X with msgDeltas := 1 } := by
  rw [checkStep, if_pos ⟨hms, hmd, hmp⟩]

/-- The closing `message_delta` / `message_stop` pair completes the check. -/
theorem checkStep_tail_done {X : StreamCheck} (r : StopReason)
    (hok : X.ok = true) (hms : X.msgStarts = 1) (hmd : X.msgDeltas = 0)
    (hmp : X.msgStops = 0) (hlen : X.stoppedIdx.length = X.started) :
    DoneInv (checkStep (checkStep X (.messageDelta r)) .messageStop) := by
  rw [checkStep_msgDelta r hms hmd hmp]
  rw [checkStep, if_pos ⟨hms, rfl, hmp, by dsimp only; omega⟩]
  exact ⟨hok, hms, rfl, rfl, by dsimp only; omega⟩

/-- The terminal tail of `finalizeStream` completes any unfinalized
translation into a well-formed stream. -/
theorem finalizeStream_inv {st : TransState} {c : StreamCheck} (r : StopReason)
    (hfin : st.finalized = false) (h : FreshInv st c ∨ MidInv st c) :
    (finalizeStream st r).1.finalized = true ∧
    DoneInv (runCheck c (finalizeStream st r).2) := by
  rw [finalizeStream, hfin]
  simp only [Bool.false_eq_true, if_false]
  refine ⟨trivial, ?_⟩
  have hmid := ensureMessageStart_inv h
  obtain ⟨hok, hms, hmd, hmp, hsi, hst, hsent, hfin2, hcur, htool⟩ := hmid
  rw [runCheck_append, runCheck_append]
  rw [List.range_eq_range' (ensureMessageStart st).1.opened]
  obtain ⟨sok, sms, smd, smp, sst, slen⟩ :=
    runCheck_stops (ensureMessageStart st).1.opened 0
      (runCheck c (ensureMessageStart st).2)
      hok hms hmd hmp (by omega) (by simp [hsi]) (by simp [hsi])
  rw [runCheck_cons, runCheck_cons, runCheck_nil]
  exact checkStep_tail_done r sok sms smd smp (by omega)

/-- One upstream event preserves the translator/checker invariant. -/
theorem stepEvent_inv {st : TransState} {c : StreamCheck} (e : UpstreamEvent)
    (h : TransInv st c) :
    TransInv (stepEvent st e).1 (runCheck c (stepEvent st e).2) := by
  by_cases hfin : st.finalized = true
  · rw [stepEvent.eq_def, if_pos hfin]
    exact h
  · have hfin2 : st.finalized = false := by revert hfin; cases st.finalized <;> simp
    have hFM : FreshInv st c ∨ MidInv st c := by
      rcases h with ⟨hf, _⟩ | h2
      · exact absurd hf hfin
      · exact h2
    rw [stepEvent.eq_def, if_neg hfin]
    cases e with
    | malformed => exact Or.inr hFM
    | done => exact Or.inl (finalizeStream_inv .endTurn hfin2 hFM)
    | chunk d =>
      dsimp only
      have m1 := ensureMessageStart_inv hFM
      have m2 := emitTextDelta_inv d.content m1
      have m3 := emitToolDeltas_inv d.toolCalls m2
      cases hfr : d.finishReason with
      | none =>
        dsimp only
        rw [runCheck_append, runCheck_append]
        exact Or.inr (Or.inr m3)
      | some fr =>
        dsimp only
        rw [runCheck_append, runCheck_append, runCheck_append]
        have hfin3 :
            (emitToolDeltas (emitTextDelta (ensureMessageStart st).1 d.content).1
              d.toolCalls).1.finalized = false :=
          m3.2.2.2.2.2.2.2.1
        exact Or.inl (finalizeStream_inv (mapFinishReason fr) hfin3 (Or.inr m3))

/-- A whole upstream run preserves the translator/checker invariant. -/
theorem runTranslator_inv (es : List UpstreamEvent) :
    ∀ (st : TransState) (c : StreamCheck), TransInv st c →
      TransInv (runTranslator st es).1 (runCheck c (runTranslator st es).2) := by
  induction es with
  | nil =>
    intro st c h
    exact h
  | cons e es ih =>
    intro st c h
    rw [runTranslator]
    dsimp only
    rw [runCheck_append]
    exact ih _ _ (stepEvent_inv e h)

/-- C1: for every finite upstream SSE event sequence — terminated by
`[DONE]`, by a `finish_reason`, or by connection close — the emitted
Anthropic stream is well-formed: exactly one `message_start` before any
block event, exactly one `content_block_start` per appearing index emitted
before any of its deltas, block indices dense (0, 1, 2, …) in first-opened
order regardless of upstream indexing, exactly one `content_block_stop`
per started block after its last delta, exactly one `message_delta`
carrying a stop reason, and exactly one `message_stop` after every block
is stopped. -/
theorem c1_stream_well_formedness :
    ∀ es : List UpstreamEvent, streamWellFormed (translateStream es) := by
  intro es
  have h0 : TransInv ({} : TransState) ({} : StreamCheck) :=
    Or.inr (Or.inl ⟨rfl, rfl, rfl, rfl, rfl, rfl⟩)
  have h1 := runTranslator_inv es {} {} h0
  rw [streamWellFormed, translateStream]
  rw [runCheck_append]
  rcases h1 with ⟨hfin, hdone⟩ | hFM
  · rw [finalizeStream, if_pos hfin]
    exact hdone
  · have hfin2 : (runTranslator {} es).1.finalized = false := by
      rcases hFM with hf | hm
      · exact hf.2.2.1
      · exact hm.2.2.2.2.2.2.2.1
    exact (finalizeStream_inv .endTurn hfin2 hFM).2

end CCO
